import Mathlib

/-!
Verification of the `keccak` Go package (Keccak / SHA-3 / SHAKE).

The repository contains two revisions of the permutation `keccakf` (a fully
unrolled one and a loop/table-driven one) over a 25-lane state of 64-bit
words, and a sponge construction (`Write`, `Sum`, `Reset`, `absorb`, `pad`,
`final`, `squeeze`) on top of it, with constructors fixing rate, output size
and domain-separation byte.

Machine integers are modelled as `Nat` with explicit `% 2 ^ 64` where Go's
`uint64` arithmetic wraps (only left shift does here; XOR, AND, OR and right
shift of values below `2 ^ 64` never overflow).  Byte buffers are `List Nat`.
Go's `panic` in `absorb` is modelled by `Option`.
-/

/-- A 64-bit word, modelled as `Nat` (wrapping is made explicit where Go wraps). -/
abbrev U64 := Nat

/-- The 25-lane Keccak state, Go's `[25]uint64`.  Indexed by `Fin 25`. -/
abbrev KState := Fin 25 → U64

/-- Array indexing into the 25-lane state; every use in the translation has
its argument below 25, so the `% 25` is the identity there. -/
def fidx (n : Nat) : Fin 25 := ⟨n % 25, Nat.mod_lt n (by decide)⟩

/-- In-place array write `S[j] = v`, functionally. -/
def upd (S : KState) (j : Fin 25) (v : U64) : KState :=
  fun i => if i = j then v else S i

/-- Go `rotl64`: `(x << n) | (x >> (64 - n))` on `uint64`; the left shift
wraps modulo `2 ^ 64`. -/
def rotl64 (x : U64) (n : Nat) : U64 :=
  ((x <<< n) % 2 ^ 64) ||| (x >>> (64 - n))

/-- Go bitwise complement `^x` on `uint64`: XOR with the all-ones word. -/
def notU64 (x : U64) : U64 := x ^^^ (2 ^ 64 - 1)

/-- Go constant `rounds = 24`. -/
def rounds : Nat := 24

/-- Go `roundConstants` (identical in both source revisions; the values are
the source's hex constants with leading zeros dropped and letters in lower
case). -/
def roundConstants : List U64 :=
  [0x1, 0x8082,
   0x800000000000808a, 0x8000000080008000,
   0x808b, 0x80000001,
   0x8000000080008081, 0x8000000000008009,
   0x8a, 0x88,
   0x80008009, 0x8000000a,
   0x8000808b, 0x800000000000008b,
   0x8000000000008089, 0x8000000000008003,
   0x8000000000008002, 0x8000000000000080,
   0x800a, 0x800000008000000a,
   0x8000000080008081, 0x8000000000008080,
   0x80000001, 0x8000000080008008]

/-- Go `rotationConstants`. -/
def rotationConstants : List Nat :=
  [1, 3, 6, 10, 15, 21, 28, 36,
   45, 55, 2, 14, 27, 41, 56, 8,
   25, 43, 62, 18, 39, 61, 20, 44]

/-- Go `piLane`. -/
def piLane : List Nat :=
  [10, 7, 11, 17, 18, 3, 5, 16,
   8, 21, 24, 4, 15, 23, 19, 13,
   12, 2, 20, 14, 22, 9, 6, 1]

/-- Theta step of the loop/table-driven `keccakf` (part_001 revision):
column parities `bc`, then XOR `bc[(i+4)%5] ^ rotl64(bc[(i+1)%5], 1)` into
all five lanes of column `i`. -/
def theta001 (S : KState) : KState :=
  let bc : Nat → U64 := fun i =>
    S (fidx i) ^^^ S (fidx (5 + i)) ^^^ S (fidx (10 + i)) ^^^
      S (fidx (15 + i)) ^^^ S (fidx (20 + i))
  (List.range 5).foldl (fun Si i =>
    let t := bc ((i + 4) % 5) ^^^ rotl64 (bc ((i + 1) % 5)) 1
    ([0, 5, 10, 15, 20] : List Nat).foldl
      (fun Sj j => upd Sj (fidx (i + j)) (Sj (fidx (i + j)) ^^^ t)) Si) S

/-- Rho+pi step of the loop/table-driven `keccakf` (part_001 revision):
walk `piLane`, the carry starts at lane 1, each step writes the rotated
carry into lane `piLane[i]` and picks up that lane's old value. -/
def rhopi001 (S : KState) : KState :=
  ((List.range 24).foldl (fun (p : KState × U64) i =>
      let j := piLane.getD i 0
      (upd p.1 (fidx j) (rotl64 p.2 (rotationConstants.getD i 0)), p.1 (fidx j)))
    (S, S (fidx 1))).1

/-- Chi step of the loop/table-driven `keccakf` (part_001 revision): per
row of five lanes, snapshot the row into `bc`, then
`S[j+i] ^= (^bc[(i+1)%5]) & bc[(i+2)%5]`. -/
def chi001 (S : KState) : KState :=
  ([0, 5, 10, 15, 20] : List Nat).foldl (fun Sj j =>
    let bc : Nat → U64 := fun i => Sj (fidx (j + i))
    (List.range 5).foldl (fun Si i =>
      upd Si (fidx (j + i))
        (Si (fidx (j + i)) ^^^ (notU64 (bc ((i + 1) % 5)) &&& bc ((i + 2) % 5)))) Sj) S

/-- Iota step: `S[0] ^= roundConstants[r]`. -/
def iota001 (r : Nat) (S : KState) : KState :=
  upd S (fidx 0) (S (fidx 0) ^^^ roundConstants.getD r 0)

/-- One round of the loop/table-driven `keccakf` (part_001 revision). -/
def round001 (r : Nat) (S : KState) : KState :=
  iota001 r (chi001 (rhopi001 (theta001 S)))

/-- The loop/table-driven `keccakf` of the part_001 revision: 24 rounds. -/
def keccakf001 (S : KState) : KState :=
  (List.range rounds).foldl (fun S r => round001 r S) S

/-- Theta step of the fully unrolled `keccakf` (part_000 revision),
translated statement by statement (the five `bc` parities, then five
column updates each with its `tmp`). -/
def theta000 (S : KState) : KState :=
  let bc0 := S (fidx 0) ^^^ S (fidx 5) ^^^ S (fidx 10) ^^^ S (fidx 15) ^^^ S (fidx 20)
  let bc1 := S (fidx 1) ^^^ S (fidx 6) ^^^ S (fidx 11) ^^^ S (fidx 16) ^^^ S (fidx 21)
  let bc2 := S (fidx 2) ^^^ S (fidx 7) ^^^ S (fidx 12) ^^^ S (fidx 17) ^^^ S (fidx 22)
  let bc3 := S (fidx 3) ^^^ S (fidx 8) ^^^ S (fidx 13) ^^^ S (fidx 18) ^^^ S (fidx 23)
  let bc4 := S (fidx 4) ^^^ S (fidx 9) ^^^ S (fidx 14) ^^^ S (fidx 19) ^^^ S (fidx 24)
  let tmp := bc4 ^^^ (((bc1 <<< 1) % 2 ^ 64) ||| (bc1 >>> (64 - 1)))
  let S := upd S (fidx 0) (S (fidx 0) ^^^ tmp)
  let S := upd S (fidx 5) (S (fidx 5) ^^^ tmp)
  let S := upd S (fidx 10) (S (fidx 10) ^^^ tmp)
  let S := upd S (fidx 15) (S (fidx 15) ^^^ tmp)
  let S := upd S (fidx 20) (S (fidx 20) ^^^ tmp)
  let tmp := bc0 ^^^ (((bc2 <<< 1) % 2 ^ 64) ||| (bc2 >>> (64 - 1)))
  let S := upd S (fidx 1) (S (fidx 1) ^^^ tmp)
  let S := upd S (fidx 6) (S (fidx 6) ^^^ tmp)
  let S := upd S (fidx 11) (S (fidx 11) ^^^ tmp)
  let S := upd S (fidx 16) (S (fidx 16) ^^^ tmp)
  let S := upd S (fidx 21) (S (fidx 21) ^^^ tmp)
  let tmp := bc1 ^^^ (((bc3 <<< 1) % 2 ^ 64) ||| (bc3 >>> (64 - 1)))
  let S := upd S (fidx 2) (S (fidx 2) ^^^ tmp)
  let S := upd S (fidx 7) (S (fidx 7) ^^^ tmp)
  let S := upd S (fidx 12) (S (fidx 12) ^^^ tmp)
  let S := upd S (fidx 17) (S (fidx 17) ^^^ tmp)
  let S := upd S (fidx 22) (S (fidx 22) ^^^ tmp)
  let tmp := bc2 ^^^ (((bc4 <<< 1) % 2 ^ 64) ||| (bc4 >>> (64 - 1)))
  let S := upd S (fidx 3) (S (fidx 3) ^^^ tmp)
  let S := upd S (fidx 8) (S (fidx 8) ^^^ tmp)
  let S := upd S (fidx 13) (S (fidx 13) ^^^ tmp)
  let S := upd S (fidx 18) (S (fidx 18) ^^^ tmp)
  let S := upd S (fidx 23) (S (fidx 23) ^^^ tmp)
  let tmp := bc3 ^^^ (((bc0 <<< 1) % 2 ^ 64) ||| (bc0 >>> (64 - 1)))
  let S := upd S (fidx 4) (S (fidx 4) ^^^ tmp)
  let S := upd S (fidx 9) (S (fidx 9) ^^^ tmp)
  let S := upd S (fidx 14) (S (fidx 14) ^^^ tmp)
  let S := upd S (fidx 19) (S (fidx 19) ^^^ tmp)
  upd S (fidx 24) (S (fidx 24) ^^^ tmp)

/-- Rho+pi step of the fully unrolled `keccakf` (part_000 revision): the
swap chain `tmp, S[j] = S[j], rotl(tmp, c)` translated step by step
(`t2` holds the right-hand side read of `S[j]`). -/
def rhopi000 (S : KState) : KState :=
  let tmp := S (fidx 1)
  let t2 := S (fidx 10)
  let S := upd S (fidx 10) (((tmp <<< 1) % 2 ^ 64) ||| (tmp >>> (64 - 1)))
  let tmp := t2
  let t2 := S (fidx 7)
  let S := upd S (fidx 7) (((tmp <<< 3) % 2 ^ 64) ||| (tmp >>> (64 - 3)))
  let tmp := t2
  let t2 := S (fidx 11)
  let S := upd S (fidx 11) (((tmp <<< 6) % 2 ^ 64) ||| (tmp >>> (64 - 6)))
  let tmp := t2
  let t2 := S (fidx 17)
  let S := upd S (fidx 17) (((tmp <<< 10) % 2 ^ 64) ||| (tmp >>> (64 - 10)))
  let tmp := t2
  let t2 := S (fidx 18)
  let S := upd S (fidx 18) (((tmp <<< 15) % 2 ^ 64) ||| (tmp >>> (64 - 15)))
  let tmp := t2
  let t2 := S (fidx 3)
  let S := upd S (fidx 3) (((tmp <<< 21) % 2 ^ 64) ||| (tmp >>> (64 - 21)))
  let tmp := t2
  let t2 := S (fidx 5)
  let S := upd S (fidx 5) (((tmp <<< 28) % 2 ^ 64) ||| (tmp >>> (64 - 28)))
  let tmp := t2
  let t2 := S (fidx 16)
  let S := upd S (fidx 16) (((tmp <<< 36) % 2 ^ 64) ||| (tmp >>> (64 - 36)))
  let tmp := t2
  let t2 := S (fidx 8)
  let S := upd S (fidx 8) (((tmp <<< 45) % 2 ^ 64) ||| (tmp >>> (64 - 45)))
  let tmp := t2
  let t2 := S (fidx 21)
  let S := upd S (fidx 21) (((tmp <<< 55) % 2 ^ 64) ||| (tmp >>> (64 - 55)))
  let tmp := t2
  let t2 := S (fidx 24)
  let S := upd S (fidx 24) (((tmp <<< 2) % 2 ^ 64) ||| (tmp >>> (64 - 2)))
  let tmp := t2
  let t2 := S (fidx 4)
  let S := upd S (fidx 4) (((tmp <<< 14) % 2 ^ 64) ||| (tmp >>> (64 - 14)))
  let tmp := t2
  let t2 := S (fidx 15)
  let S := upd S (fidx 15) (((tmp <<< 27) % 2 ^ 64) ||| (tmp >>> (64 - 27)))
  let tmp := t2
  let t2 := S (fidx 23)
  let S := upd S (fidx 23) (((tmp <<< 41) % 2 ^ 64) ||| (tmp >>> (64 - 41)))
  let tmp := t2
  let t2 := S (fidx 19)
  let S := upd S (fidx 19) (((tmp <<< 56) % 2 ^ 64) ||| (tmp >>> (64 - 56)))
  let tmp := t2
  let t2 := S (fidx 13)
  let S := upd S (fidx 13) (((tmp <<< 8) % 2 ^ 64) ||| (tmp >>> (64 - 8)))
  let tmp := t2
  let t2 := S (fidx 12)
  let S := upd S (fidx 12) (((tmp <<< 25) % 2 ^ 64) ||| (tmp >>> (64 - 25)))
  let tmp := t2
  let t2 := S (fidx 2)
  let S := upd S (fidx 2) (((tmp <<< 43) % 2 ^ 64) ||| (tmp >>> (64 - 43)))
  let tmp := t2
  let t2 := S (fidx 20)
  let S := upd S (fidx 20) (((tmp <<< 62) % 2 ^ 64) ||| (tmp >>> (64 - 62)))
  let tmp := t2
  let t2 := S (fidx 14)
  let S := upd S (fidx 14) (((tmp <<< 18) % 2 ^ 64) ||| (tmp >>> (64 - 18)))
  let tmp := t2
  let t2 := S (fidx 22)
  let S := upd S (fidx 22) (((tmp <<< 39) % 2 ^ 64) ||| (tmp >>> (64 - 39)))
  let tmp := t2
  let t2 := S (fidx 9)
  let S := upd S (fidx 9) (((tmp <<< 61) % 2 ^ 64) ||| (tmp >>> (64 - 61)))
  let tmp := t2
  let t2 := S (fidx 6)
  let S := upd S (fidx 6) (((tmp <<< 20) % 2 ^ 64) ||| (tmp >>> (64 - 20)))
  let tmp := t2
  upd S (fidx 1) (((tmp <<< 44) % 2 ^ 64) ||| (tmp >>> (64 - 44)))

/-- Chi step of the fully unrolled `keccakf` (part_000 revision): five
rows, each snapshotting `bc0..bc4` then updating its five lanes. -/
def chi000 (S : KState) : KState :=
  let bc0 := S (fidx 0)
  let bc1 := S (fidx 1)
  let bc2 := S (fidx 2)
  let bc3 := S (fidx 3)
  let bc4 := S (fidx 4)
  let S := upd S (fidx 0) (S (fidx 0) ^^^ (notU64 bc1 &&& bc2))
  let S := upd S (fidx 1) (S (fidx 1) ^^^ (notU64 bc2 &&& bc3))
  let S := upd S (fidx 2) (S (fidx 2) ^^^ (notU64 bc3 &&& bc4))
  let S := upd S (fidx 3) (S (fidx 3) ^^^ (notU64 bc4 &&& bc0))
  let S := upd S (fidx 4) (S (fidx 4) ^^^ (notU64 bc0 &&& bc1))
  let bc0 := S (fidx 5)
  let bc1 := S (fidx 6)
  let bc2 := S (fidx 7)
  let bc3 := S (fidx 8)
  let bc4 := S (fidx 9)
  let S := upd S (fidx 5) (S (fidx 5) ^^^ (notU64 bc1 &&& bc2))
  let S := upd S (fidx 6) (S (fidx 6) ^^^ (notU64 bc2 &&& bc3))
  let S := upd S (fidx 7) (S (fidx 7) ^^^ (notU64 bc3 &&& bc4))
  let S := upd S (fidx 8) (S (fidx 8) ^^^ (notU64 bc4 &&& bc0))
  let S := upd S (fidx 9) (S (fidx 9) ^^^ (notU64 bc0 &&& bc1))
  let bc0 := S (fidx 10)
  let bc1 := S (fidx 11)
  let bc2 := S (fidx 12)
  let bc3 := S (fidx 13)
  let bc4 := S (fidx 14)
  let S := upd S (fidx 10) (S (fidx 10) ^^^ (notU64 bc1 &&& bc2))
  let S := upd S (fidx 11) (S (fidx 11) ^^^ (notU64 bc2 &&& bc3))
  let S := upd S (fidx 12) (S (fidx 12) ^^^ (notU64 bc3 &&& bc4))
  let S := upd S (fidx 13) (S (fidx 13) ^^^ (notU64 bc4 &&& bc0))
  let S := upd S (fidx 14) (S (fidx 14) ^^^ (notU64 bc0 &&& bc1))
  let bc0 := S (fidx 15)
  let bc1 := S (fidx 16)
  let bc2 := S (fidx 17)
  let bc3 := S (fidx 18)
  let bc4 := S (fidx 19)
  let S := upd S (fidx 15) (S (fidx 15) ^^^ (notU64 bc1 &&& bc2))
  let S := upd S (fidx 16) (S (fidx 16) ^^^ (notU64 bc2 &&& bc3))
  let S := upd S (fidx 17) (S (fidx 17) ^^^ (notU64 bc3 &&& bc4))
  let S := upd S (fidx 18) (S (fidx 18) ^^^ (notU64 bc4 &&& bc0))
  let S := upd S (fidx 19) (S (fidx 19) ^^^ (notU64 bc0 &&& bc1))
  let bc0 := S (fidx 20)
  let bc1 := S (fidx 21)
  let bc2 := S (fidx 22)
  let bc3 := S (fidx 23)
  let bc4 := S (fidx 24)
  let S := upd S (fidx 20) (S (fidx 20) ^^^ (notU64 bc1 &&& bc2))
  let S := upd S (fidx 21) (S (fidx 21) ^^^ (notU64 bc2 &&& bc3))
  let S := upd S (fidx 22) (S (fidx 22) ^^^ (notU64 bc3 &&& bc4))
  let S := upd S (fidx 23) (S (fidx 23) ^^^ (notU64 bc4 &&& bc0))
  upd S (fidx 24) (S (fidx 24) ^^^ (notU64 bc0 &&& bc1))

/-- Iota step of the fully unrolled `keccakf` (part_000 revision),
textually the same statement `S[0] ^= roundConstants[r]` as in part_001. -/
def iota000 (r : Nat) (S : KState) : KState :=
  upd S (fidx 0) (S (fidx 0) ^^^ roundConstants.getD r 0)

/-- One round of the fully unrolled `keccakf` (part_000 revision): the
four comment-delimited phases of the Go round body in order. -/
def round000 (r : Nat) (S : KState) : KState :=
  iota000 r (chi000 (rhopi000 (theta000 S)))

/-- The fully unrolled `keccakf` of the part_000 revision: 24 rounds. -/
def keccakf000 (S : KState) : KState :=
  (List.range rounds).foldl (fun S r => round000 r S) S

/-- Theta as the claim words it: column parities
`parity c = S c ^^^ S (c+5) ^^^ S (c+10) ^^^ S (c+15) ^^^ S (c+20)`. -/
def paritySpec (S : KState) (c : Nat) : U64 :=
  S (fidx c) ^^^ S (fidx (c + 5)) ^^^ S (fidx (c + 10)) ^^^
    S (fidx (c + 15)) ^^^ S (fidx (c + 20))

/-- Theta as the claim words it: XOR
`parity ((c+4) % 5) ^^^ rotl (parity ((c+1) % 5)) 1` into every lane of
column `c` (the column of lane `i` is `i % 5`). -/
def thetaSpec (S : KState) : KState := fun i =>
  S i ^^^ (paritySpec S ((i.val % 5 + 4) % 5) ^^^
    rotl64 (paritySpec S ((i.val % 5 + 1) % 5)) 1)

/-- The fixed 24-step rho+pi lane cycle as the claim words it: each triple
is (destination lane, source lane, left-rotation amount), the rotation
amounts being 1,3,6,10,15,21,28,36,45,55,2,14,27,41,56,8,25,43,62,18,39,
61,20,44 in cycle order.  Lane 0 appears in no triple. -/
def rhoPiMoves : List (Nat × Nat × Nat) :=
  [(10, 1, 1), (7, 10, 3), (11, 7, 6), (17, 11, 10), (18, 17, 15),
   (3, 18, 21), (5, 3, 28), (16, 5, 36), (8, 16, 45), (21, 8, 55),
   (24, 21, 2), (4, 24, 14), (15, 4, 27), (23, 15, 41), (19, 23, 56),
   (13, 19, 8), (12, 13, 25), (2, 12, 43), (20, 2, 62), (14, 20, 18),
   (22, 14, 39), (9, 22, 61), (6, 9, 20), (1, 6, 44)]

/-- Rho+pi as the claim words it: a simultaneous permutation-with-rotation
of the 24 lanes on the cycle, lane 0 never moved or rotated. -/
def rhopiSpec (S : KState) : KState := fun i =>
  match rhoPiMoves.find? (fun m => m.1 == i.val) with
  | some m => rotl64 (S (fidx m.2.1)) m.2.2
  | none => S i

/-- Chi as the claim words it: per row of 5 lanes,
`new[i] = old[i] ^^^ (NOT old[(i+1) % 5] AND old[(i+2) % 5])` from a
snapshot of the row (lane `l` sits at position `l % 5` of row `l / 5`). -/
def chiSpec (S : KState) : KState := fun i =>
  S i ^^^ (notU64 (S (fidx (i.val / 5 * 5 + (i.val % 5 + 1) % 5))) &&&
    S (fidx (i.val / 5 * 5 + (i.val % 5 + 2) % 5)))

/-- Iota as the claim words it: XOR `roundConstants[r]` into lane 0 only. -/
def iotaSpec (r : Nat) (S : KState) : KState := fun i =>
  if i.val = 0 then S i ^^^ roundConstants.getD r 0 else S i

/-- One round as the claim words it: theta, then rho+pi, then chi, then iota. -/
def roundSpec (r : Nat) (S : KState) : KState :=
  iotaSpec r (chiSpec (rhopiSpec (thetaSpec S)))

/-- The whole permutation as the claim words it: 24 rounds of `roundSpec`. -/
def keccakfSpec (S : KState) : KState :=
  (List.range 24).foldl (fun S r => roundSpec r S) S

theorem fin25_eq_fidx (n : Nat) (hn : n < 25) : (⟨n, hn⟩ : Fin 25) = fidx n := by
  simp only [fidx, Fin.mk.injEq]
  omega

set_option maxRecDepth 10000 in
theorem theta000_eq_spec (S : KState) : theta000 S = thetaSpec S := by
  funext i
  obtain ⟨n, hn⟩ := i
  rw [fin25_eq_fidx n hn]
  interval_cases n <;> rfl

set_option maxRecDepth 10000 in
theorem theta001_eq_spec (S : KState) : theta001 S = thetaSpec S := by
  funext i
  obtain ⟨n, hn⟩ := i
  rw [fin25_eq_fidx n hn]
  interval_cases n <;> rfl

set_option maxRecDepth 10000 in
theorem rhopi000_eq_spec (S : KState) : rhopi000 S = rhopiSpec S := by
  funext i
  obtain ⟨n, hn⟩ := i
  rw [fin25_eq_fidx n hn]
  interval_cases n <;> rfl

set_option maxRecDepth 10000 in
theorem rhopi001_eq_spec (S : KState) : rhopi001 S = rhopiSpec S := by
  funext i
  obtain ⟨n, hn⟩ := i
  rw [fin25_eq_fidx n hn]
  interval_cases n <;> rfl

set_option maxRecDepth 10000 in
theorem chi000_eq_spec (S : KState) : chi000 S = chiSpec S := by
  funext i
  obtain ⟨n, hn⟩ := i
  rw [fin25_eq_fidx n hn]
  interval_cases n <;> rfl

set_option maxRecDepth 10000 in
theorem chi001_eq_spec (S : KState) : chi001 S = chiSpec S := by
  funext i
  obtain ⟨n, hn⟩ := i
  rw [fin25_eq_fidx n hn]
  interval_cases n <;> rfl

set_option maxRecDepth 10000 in
theorem iota000_eq_spec (r : Nat) (S : KState) : iota000 r S = iotaSpec r S := by
  funext i
  obtain ⟨n, hn⟩ := i
  rw [fin25_eq_fidx n hn]
  interval_cases n <;> rfl

set_option maxRecDepth 10000 in
theorem iota001_eq_spec (r : Nat) (S : KState) : iota001 r S = iotaSpec r S := by
  funext i
  obtain ⟨n, hn⟩ := i
  rw [fin25_eq_fidx n hn]
  interval_cases n <;> rfl

theorem round000_eq_spec (r : Nat) (S : KState) : round000 r S = roundSpec r S := by
  rw [round000, roundSpec, theta000_eq_spec, rhopi000_eq_spec, chi000_eq_spec,
    iota000_eq_spec]

theorem round001_eq_spec (r : Nat) (S : KState) : round001 r S = roundSpec r S := by
  rw [round001, roundSpec, theta001_eq_spec, rhopi001_eq_spec, chi001_eq_spec,
    iota001_eq_spec]

theorem keccakf000_eq_spec (S : KState) : keccakf000 S = keccakfSpec S := by
  rw [keccakf000, keccakfSpec]
  have h : (fun (S : KState) (r : Nat) => round000 r S) =
      fun (S : KState) (r : Nat) => roundSpec r S := by
    funext S r
    exact round000_eq_spec r S
  rw [show rounds = 24 from rfl, h]

theorem keccakf001_eq_spec (S : KState) : keccakf001 S = keccakfSpec S := by
  rw [keccakf001, keccakfSpec]
  have h : (fun (S : KState) (r : Nat) => round001 r S) =
      fun (S : KState) (r : Nat) => roundSpec r S := by
    funext S r
    exact round001_eq_spec r S
  rw [show rounds = 24 from rfl, h]

/-- Go `uint64le`: read 8 bytes little-endian.  Go panics when fewer than 8
bytes remain; every call in the package stays in range, the `getD` default
is never taken there. -/
def uint64le (v : List Nat) : U64 :=
  v.getD 0 0 ||| (v.getD 1 0 <<< 8) ||| (v.getD 2 0 <<< 16) ||| (v.getD 3 0 <<< 24) |||
    (v.getD 4 0 <<< 32) ||| (v.getD 5 0 <<< 40) ||| (v.getD 6 0 <<< 48) |||
    (v.getD 7 0 <<< 56)

/-- Go `putUint64le`: the 8 bytes `byte(x), byte(x>>8), ..., byte(x>>56)`
written for one lane (`byte` truncates to the low 8 bits). -/
def putUint64le (x : U64) : List Nat :=
  [x % 256, (x >>> 8) % 256, (x >>> 16) % 256, (x >>> 24) % 256,
   (x >>> 32) % 256, (x >>> 40) % 256, (x >>> 48) % 256, (x >>> 56) % 256]

/-- The 200-byte scratch buffer `squeeze` fills: `putUint64le(buf[i*8:], S[i])`
for each of the 25 lanes. -/
def stateBytes (S : KState) : List Nat :=
  ((List.range 25).map (fun i => putUint64le (S (fidx i)))).flatten

/-- Go struct `keccak`. -/
structure Keccak where
  S : KState
  size : Nat
  blockSize : Nat
  buf : List Nat
  domain : Nat

/-- Go constant `domainNone = 1`. -/
def domainNone : Nat := 1

/-- Go constant `domainSHA3 = 0x06`. -/
def domainSHA3 : Nat := 0x06

/-- Go constant `domainSHAKE = 0x1f`. -/
def domainSHAKE : Nat := 0x1f

/-- Go `newKeccak(capacity, output, domain)`: zero state, empty buffer,
`size = output / 8`, `blockSize = 200 - capacity / 8`. -/
def newKeccak (capacity output : Nat) (domain : Nat) : Keccak :=
  { S := fun _ => 0
    size := output / 8
    blockSize := 200 - capacity / 8
    buf := []
    domain := domain }

/-- Go `New224()`. -/
def New224 : Keccak := newKeccak (224 * 2) 224 domainNone

/-- Go `New256()`. -/
def New256 : Keccak := newKeccak (256 * 2) 256 domainNone

/-- Go `New384()`. -/
def New384 : Keccak := newKeccak (384 * 2) 384 domainNone

/-- Go `New512()`. -/
def New512 : Keccak := newKeccak (512 * 2) 512 domainNone

/-- Go `NewSHA3224()` (the constructor set consistent with `newKeccak`'s
three-parameter signature, as it appears in the repository). -/
def NewSHA3224 : Keccak := newKeccak (224 * 2) 224 domainSHA3

/-- Go `NewSHA3256()`. -/
def NewSHA3256 : Keccak := newKeccak (256 * 2) 256 domainSHA3

/-- Go `NewSHA3384()`. -/
def NewSHA3384 : Keccak := newKeccak (384 * 2) 384 domainSHA3

/-- Go `NewSHA3512()`. -/
def NewSHA3512 : Keccak := newKeccak (512 * 2) 512 domainSHA3

/-- Go `NewSHAKE128(n)`. -/
def NewSHAKE128 (n : Nat) : Keccak := newKeccak (128 * 2) (n * 8) domainSHAKE

/-- Go `NewSHAKE256(n)`. -/
def NewSHAKE256 (n : Nat) : Keccak := newKeccak (256 * 2) (n * 8) domainSHAKE

/-- The XOR loop of Go `absorb`:
`for i in 0 ..< blockSize/8 { S[i] ^= uint64le(block[i*8:]) }`. -/
def xorIn (bs : Nat) (S : KState) (block : List Nat) : KState :=
  (List.range (bs / 8)).foldl
    (fun S i => upd S (fidx i) (S (fidx i) ^^^ uint64le (block.drop (i * 8)))) S

/-- Go `absorb`: panics (`none`) when the block length differs from
`blockSize`; otherwise XORs the block into the state lanes and applies the
permutation once. -/
def absorb (k : Keccak) (block : List Nat) : Option Keccak :=
  if block.length ≠ k.blockSize then none
  else some { k with S := keccakf000 (xorIn k.blockSize k.S block) }

/-- The block loop of Go `Write`:
`for len(b) >= blockSize { absorb(b[:blockSize]); b = b[blockSize:] }`.
The `0 < blockSize` guard is the termination condition of the loop: with
`blockSize = 0` and `b` nonempty the Go loop never exits. -/
def absorbLoop (k : Keccak) (b : List Nat) : Option (Keccak × List Nat) :=
  if _h : 0 < k.blockSize ∧ k.blockSize ≤ b.length then
    match absorb k (b.take k.blockSize) with
    | none => none
    | some k1 => absorbLoop k1 (b.drop k.blockSize)
  else some (k, b)
termination_by b.length
decreasing_by simp; omega

/-- Go `Write`: top up a nonempty pending buffer first (absorbing it when
it reaches a full block), then absorb whole blocks from the rest, and keep
the remainder as the new pending buffer.  `none` models the panic in
`absorb` (never taken under the buffer invariant). -/
def Write (k : Keccak) (b : List Nat) : Option Keccak :=
  if k.buf.length > 0 then
    let x := min (k.blockSize - k.buf.length) b.length
    let kb := k.buf ++ b.take x
    let b1 := b.drop x
    if kb.length < k.blockSize then
      some { k with buf := kb }
    else
      match absorb k kb with
      | none => none
      | some k1 =>
        match absorbLoop { k1 with buf := [] } b1 with
        | none => none
        | some (k2, rest) => some { k2 with buf := rest }
  else
    match absorbLoop k b with
    | none => none
    | some (k2, rest) => some { k2 with buf := rest }

/-- Go `pad`: zero-filled block of length `blockSize`, the pending buffer
copied to its start, the domain byte written right after it, `0x80` OR'd
into the last byte.  Go's `pad` has a slice parameter it never reads (it
uses `k.buf`), omitted here; the out-of-range writes Go would panic on
(only reachable when the buffer invariant is broken) are no-ops of
`List.set` here. -/
def pad (k : Keccak) : List Nat :=
  let padded := List.replicate k.blockSize 0
  let padded := k.buf.take padded.length ++ padded.drop (min k.buf.length padded.length)
  let padded := padded.set k.buf.length k.domain
  padded.set (padded.length - 1) (padded.getD (padded.length - 1) 0 ||| 0x80)

/-- Go `final`: pad the pending buffer and absorb the result. -/
def final (k : Keccak) : Option Keccak :=
  absorb k (pad k)

/-- The squeeze loop of Go `squeeze`, returning the emitted bytes: dump all
25 lanes little-endian; if `n ≤ blockSize` emit the first `n` dumped bytes
and stop, else emit the first `blockSize` bytes, permute, and continue with
`n - blockSize`.  The `0 < bs` guard is the termination condition: with
`blockSize = 0 < n` the Go loop never exits. -/
def squeezeLoop (bs : Nat) (S : KState) (n : Nat) : List Nat :=
  let buf := stateBytes S
  if n ≤ bs then buf.take n
  else if _h : 0 < bs then buf.take bs ++ squeezeLoop bs (keccakf000 S) (n - bs)
  else []
termination_by n
decreasing_by omega

/-- Go `squeeze`: append `size` squeezed bytes to `b`. -/
def squeeze (k : Keccak) (b : List Nat) : List Nat :=
  b ++ squeezeLoop k.blockSize k.S k.size

/-- Go `Sum`: `k := *k0` takes a value copy, `final` and `squeeze` run on
the copy, nothing is ever written through the receiver `k0` — the pair
returns the digest (`none` models the panic in `absorb`) together with the
receiver as the method leaves it. -/
def SumK (k0 : Keccak) (b : List Nat) : Option (List Nat) × Keccak :=
  (match final k0 with
   | none => none
   | some k1 => some (squeeze k1 b), k0)

/-- Go `Reset`: zero every lane, clear the pending buffer. -/
def Reset (k : Keccak) : Keccak :=
  { k with S := fun _ => 0, buf := [] }

/-- Go `Size`. -/
def Size (k : Keccak) : Nat := k.size

/-- Go `BlockSize`. -/
def BlockSize (k : Keccak) : Nat := k.blockSize

/-- Successive `Write` calls, one per chunk, propagating the `absorb`
panic (`none`) if it ever fired. -/
def writeList (k : Keccak) (chunks : List (List Nat)) : Option Keccak :=
  match chunks with
  | [] => some k
  | c :: cs =>
    match Write k c with
    | none => none
    | some k1 => writeList k1 cs

/-- Construct, write the whole input, and take the digest: the common
use of the package, used to state input/output level claims. -/
def hashBytes (k : Keccak) (input : List Nat) : Option (List Nat) :=
  match Write k input with
  | none => none
  | some k1 => (SumK k1 []).1

/-- C1: the permutation `keccakf` (part_001) is a total function on 25-word
states that applies exactly 24 rounds, each round being theta (column
parities, then `parity[(c+4)%5] ^^^ rotl(parity[(c+1)%5], 1)` XOR'd into
all five lanes of column `c`), rho+pi (the fixed 24-step lane cycle with
left-rotation amounts 1,3,6,10,15,21,28,36,45,55,2,14,27,41,56,8,25,43,62,
18,39,61,20,44 in cycle order, lane 0 never moved or rotated), chi (per
row, `new[i] = old[i] ^^^ (NOT old[(i+1)%5] AND old[(i+2)%5])` from a
snapshot of the row), and iota (`roundConstants[r]` into lane 0 only), for
every input state. -/
theorem C1_keccakf_is_24_spec_rounds :
    (∀ S : KState, keccakf001 S = (List.range 24).foldl (fun T r => roundSpec r T) S)
    ∧ rotationConstants =
        [1, 3, 6, 10, 15, 21, 28, 36, 45, 55, 2, 14, 27, 41, 56, 8,
         25, 43, 62, 18, 39, 61, 20, 44]
    ∧ (∀ S : KState, rhopiSpec S (fidx 0) = S (fidx 0)) :=
  ⟨fun S => keccakf001_eq_spec S, rfl, fun _ => rfl⟩

/-- C10: the fully unrolled `keccakf` of part_000 and the loop/table-driven
`keccakf` of part_001 compute the same output state for every 25-word
input state. -/
theorem C10_keccakf_implementations_agree (S : KState) :
    keccakf000 S = keccakf001 S := by
  rw [keccakf000_eq_spec, keccakf001_eq_spec]

theorem pad_step_one (k : Keccak) (h : k.buf.length < k.blockSize) :
    (k.buf.take (List.replicate k.blockSize (0 : Nat)).length ++
        (List.replicate k.blockSize (0 : Nat)).drop
          (min k.buf.length (List.replicate k.blockSize (0 : Nat)).length)) =
      k.buf ++ List.replicate (k.blockSize - k.buf.length) 0 := by
  rw [List.length_replicate, List.take_of_length_le (Nat.le_of_lt h),
    Nat.min_eq_left (Nat.le_of_lt h), List.drop_replicate]

theorem pad_step_two (k : Keccak) (h : k.buf.length < k.blockSize) :
    (k.buf ++ List.replicate (k.blockSize - k.buf.length) 0).set k.buf.length k.domain =
      k.buf ++ k.domain :: List.replicate (k.blockSize - k.buf.length - 1) 0 := by
  rw [List.set_append_right _ _ (Nat.le_refl _), Nat.sub_self]
  have e : k.blockSize - k.buf.length = (k.blockSize - k.buf.length - 1) + 1 := by omega
  rw [e, List.replicate_succ]
  rfl

theorem pad_closed (k : Keccak) (h : k.buf.length < k.blockSize) :
    pad k =
      (k.buf ++ k.domain :: List.replicate (k.blockSize - k.buf.length - 1) 0).set
        (k.blockSize - 1)
        ((k.buf ++ k.domain :: List.replicate (k.blockSize - k.buf.length - 1) 0).getD
            (k.blockSize - 1) 0 ||| 0x80) := by
  show ((k.buf.take (List.replicate k.blockSize (0 : Nat)).length ++
      (List.replicate k.blockSize (0 : Nat)).drop
        (min k.buf.length (List.replicate k.blockSize (0 : Nat)).length)).set
          k.buf.length k.domain).set _ _ = _
  rw [pad_step_one k h, pad_step_two k h]
  have hl : (k.buf ++ k.domain :: List.replicate (k.blockSize - k.buf.length - 1) 0).length =
      k.blockSize := by
    simp
    omega
  rw [hl]

theorem pad_length (k : Keccak) (h : k.buf.length < k.blockSize) :
    (pad k).length = k.blockSize := by
  rw [pad_closed k h, List.length_set]
  simp
  omega

/-- C2: for `0 ≤ len(buf) < blockSize`, `pad` produces a block of exactly
`blockSize` bytes: the pending bytes, then the domain byte at offset
`len(buf)`, then zero bytes, with `0x80` OR'd into the last byte; when
`len(buf) = blockSize - 1` the final byte is `domain ||| 0x80` (combined
by OR, not overwritten). -/
theorem C2_pad_shape (k : Keccak) (h : k.buf.length < k.blockSize) :
    (pad k).length = k.blockSize
    ∧ pad k =
        (k.buf ++ k.domain :: List.replicate (k.blockSize - k.buf.length - 1) 0).set
          (k.blockSize - 1)
          ((k.buf ++ k.domain :: List.replicate (k.blockSize - k.buf.length - 1) 0).getD
              (k.blockSize - 1) 0 ||| 0x80)
    ∧ (k.buf.length = k.blockSize - 1 → pad k = k.buf ++ [k.domain ||| 0x80]) := by
  refine ⟨pad_length k h, pad_closed k h, fun he => ?_⟩
  rw [pad_closed k h]
  have e0 : k.blockSize - k.buf.length - 1 = 0 := by omega
  rw [e0, List.replicate_zero, ← he]
  rw [List.set_append_right _ _ (Nat.le_refl _), Nat.sub_self]
  congr 1
  rw [List.getD_eq_getElem?_getD, List.getElem?_append_right (Nat.le_refl _), Nat.sub_self]
  rfl

theorem C2_pad_shape_witness :
    let K : Keccak :=
      { S := fun _ => 0, size := 4, blockSize := 4, buf := [9, 9, 9], domain := 6 }
    K.buf.length < K.blockSize ∧
      ((pad K).length = K.blockSize
       ∧ pad K =
           (K.buf ++ K.domain :: List.replicate (K.blockSize - K.buf.length - 1) 0).set
             (K.blockSize - 1)
             ((K.buf ++ K.domain :: List.replicate (K.blockSize - K.buf.length - 1) 0).getD
                 (K.blockSize - 1) 0 ||| 0x80)
       ∧ (K.buf.length = K.blockSize - 1 → pad K = K.buf ++ [K.domain ||| 0x80])) :=
  ⟨by decide, C2_pad_shape _ (by decide)⟩

/-- C5: `Sum` operates on a copy of the instance: the receiver is left
unchanged (state array and pending buffer), so a second `Sum` with no
intervening `Write` returns the same bytes, and a `Write` after `Sum`
extends the original unfinalized stream. -/
theorem C5_sum_leaves_receiver_unchanged (k : Keccak) (b more : List Nat) :
    (SumK k b).2 = k
    ∧ (SumK ((SumK k b).2) b).1 = (SumK k b).1
    ∧ Write ((SumK k b).2) more = Write k more :=
  ⟨rfl, rfl, rfl⟩

/-- C6: the SHA-3 constructors fix the named-family parameters: capacity
twice the digest bits, hence `BlockSize` 144/136/104/72, `Size`
28/32/48/64, and domain byte `0x06`. -/
theorem C6_sha3_constructor_parameters :
    NewSHA3224 = newKeccak (224 * 2) 224 domainSHA3
    ∧ NewSHA3256 = newKeccak (256 * 2) 256 domainSHA3
    ∧ NewSHA3384 = newKeccak (384 * 2) 384 domainSHA3
    ∧ NewSHA3512 = newKeccak (512 * 2) 512 domainSHA3
    ∧ BlockSize NewSHA3224 = 144 ∧ Size NewSHA3224 = 28 ∧ NewSHA3224.domain = 0x06
    ∧ BlockSize NewSHA3256 = 136 ∧ Size NewSHA3256 = 32 ∧ NewSHA3256.domain = 0x06
    ∧ BlockSize NewSHA3384 = 104 ∧ Size NewSHA3384 = 48 ∧ NewSHA3384.domain = 0x06
    ∧ BlockSize NewSHA3512 = 72 ∧ Size NewSHA3512 = 64 ∧ NewSHA3512.domain = 0x06
    ∧ (∀ capacity output domain,
        BlockSize (newKeccak capacity output domain) = 200 - capacity / 8) :=
  ⟨rfl, rfl, rfl, rfl, rfl, rfl, rfl, rfl, rfl, rfl, rfl, rfl, rfl, rfl, rfl, rfl,
   fun _ _ _ => rfl⟩

theorem stateBytes_length (S : KState) : (stateBytes S).length = 200 := by
  rw [stateBytes, List.length_flatten, List.map_map]
  have h : (List.length ∘ fun i => putUint64le (S (fidx i))) = fun _ => 8 := by
    funext i
    rfl
  rw [h]
  rfl

theorem pad_length_all (k : Keccak) : (pad k).length = k.blockSize := by
  simp [pad]
  omega

theorem final_eq (k : Keccak) :
    final k = some { k with S := keccakf000 (xorIn k.blockSize k.S (pad k)) } := by
  rw [final, absorb, if_neg]
  simp [pad_length_all]

set_option maxHeartbeats 1000000 in
theorem squeezeLoop_length (bs : Nat) (h1 : 0 < bs) (h2 : bs ≤ 200) :
    ∀ n S, (squeezeLoop bs S n).length = n := by
  intro n
  induction n using Nat.strong_induction_on with
  | _ n ih =>
    intro S
    rw [squeezeLoop]
    by_cases hn : n ≤ bs
    · simp only [if_pos hn, List.length_take, stateBytes_length]
      omega
    · simp only [if_neg hn, dif_pos h1, List.length_append, List.length_take,
        stateBytes_length, ih (n - bs) (by omega)]
      omega

/-- C3: for every sponge instance (with its positive, at most 200-byte
rate), `Sum extra` succeeds and returns `extra` with exactly `size` bytes
appended, the appended bytes being produced by the squeeze loop
(`squeezeLoop`: serialize the 25 lanes little-endian, emit `n` bytes and
stop when `n ≤ rate`, else emit `rate` bytes, permute and repeat) run on
the finalized copy of the state. -/
theorem C3_sum_appends_size_squeezed_bytes (k : Keccak) (b : List Nat)
    (h1 : 0 < k.blockSize) (h2 : k.blockSize ≤ 200) :
    (SumK k b).1 =
      some (b ++ squeezeLoop k.blockSize (keccakf000 (xorIn k.blockSize k.S (pad k))) k.size)
    ∧ (squeezeLoop k.blockSize (keccakf000 (xorIn k.blockSize k.S (pad k))) k.size).length
        = k.size := by
  constructor
  · show (match final k with
      | none => none
      | some k1 => some (squeeze k1 b)) = _
    rw [final_eq k]
    rfl
  · exact squeezeLoop_length k.blockSize h1 h2 k.size _

theorem C3_sum_appends_size_squeezed_bytes_witness :
    let K : Keccak :=
      { S := fun _ => 0, size := 3, blockSize := 16, buf := [1], domain := 6 }
    (0 < K.blockSize ∧ K.blockSize ≤ 200) ∧
      ((SumK K []).1 =
          some ([] ++ squeezeLoop K.blockSize (keccakf000 (xorIn K.blockSize K.S (pad K))) K.size)
       ∧ (squeezeLoop K.blockSize (keccakf000 (xorIn K.blockSize K.S (pad K))) K.size).length
           = K.size) :=
  ⟨⟨by decide, by decide⟩,
   C3_sum_appends_size_squeezed_bytes _ [] (by decide) (by decide)⟩

/-- Reference block-wise absorber: while at least one full block remains
(and the rate is positive), XOR the leading block into the state, permute,
and continue with the rest; returns the final state and the unconsumed
remainder.  This is the normal form that `Write`'s two absorb sites reach. -/
def absorbAll (bs : Nat) (S : KState) (input : List Nat) : KState × List Nat :=
  if _h : 0 < bs ∧ bs ≤ input.length then
    absorbAll bs (keccakf000 (xorIn bs S (input.take bs))) (input.drop bs)
  else (S, input)
termination_by input.length
decreasing_by simp; omega

theorem absorbAll_stop (bs : Nat) (S : KState) (input : List Nat)
    (h : ¬(0 < bs ∧ bs ≤ input.length)) : absorbAll bs S input = (S, input) := by
  rw [absorbAll, dif_neg h]

theorem absorbAll_step (bs : Nat) (S : KState) (input : List Nat)
    (h : 0 < bs ∧ bs ≤ input.length) :
    absorbAll bs S input =
      absorbAll bs (keccakf000 (xorIn bs S (input.take bs))) (input.drop bs) := by
  rw [absorbAll]
  rw [dif_pos h]

theorem absorb_some (k : Keccak) (block : List Nat) (h : block.length = k.blockSize) :
    absorb k block = some { k with S := keccakf000 (xorIn k.blockSize k.S block) } := by
  rw [absorb, if_neg]
  omega

theorem absorbAll_rem_lt (bs : Nat) (hbs : 0 < bs) :
    ∀ input (S : KState), (absorbAll bs S input).2.length < bs := by
  suffices H : ∀ (n : Nat) (input : List Nat) (S : KState), input.length ≤ n →
      (absorbAll bs S input).2.length < bs by
    intro input S
    exact H input.length input S (Nat.le_refl _)
  intro n
  induction n with
  | zero =>
    intro input S h
    rw [absorbAll_stop bs S input (by omega)]
    show input.length < bs
    omega
  | succ n ih =>
    intro input S h
    by_cases hg : bs ≤ input.length
    · rw [absorbAll_step bs S input ⟨hbs, hg⟩]
      exact ih _ _ (by simp only [List.length_drop]; omega)
    · rw [absorbAll_stop bs S input (by omega)]
      show input.length < bs
      omega

theorem absorbLoop_eq :
    ∀ (k : Keccak) (b : List Nat), 0 < k.blockSize →
      absorbLoop k b =
        some ({ k with S := (absorbAll k.blockSize k.S b).1 },
          (absorbAll k.blockSize k.S b).2) := by
  suffices H : ∀ (n : Nat) (k : Keccak) (b : List Nat), b.length ≤ n → 0 < k.blockSize →
      absorbLoop k b =
        some ({ k with S := (absorbAll k.blockSize k.S b).1 },
          (absorbAll k.blockSize k.S b).2) by
    intro k b hbs
    exact H b.length k b (Nat.le_refl _) hbs
  intro n
  induction n with
  | zero =>
    intro k b h hbs
    rw [absorbLoop, dif_neg (by omega), absorbAll_stop k.blockSize k.S b (by omega)]
  | succ n ih =>
    intro k b h hbs
    by_cases hg : k.blockSize ≤ b.length
    · rw [absorbLoop, dif_pos ⟨hbs, hg⟩,
        absorb_some k (b.take k.blockSize) (by simp only [List.length_take]; omega)]
      rw [absorbAll_step k.blockSize k.S b ⟨hbs, hg⟩]
      exact ih _ _ (by simp only [List.length_drop]; omega) hbs
    · rw [absorbLoop, dif_neg (by omega),
        absorbAll_stop k.blockSize k.S b (by omega)]

theorem Write_eq (k : Keccak) (b : List Nat) (h : k.buf.length < k.blockSize) :
    Write k b = some { k with
      S := (absorbAll k.blockSize k.S (k.buf ++ b)).1,
      buf := (absorbAll k.blockSize k.S (k.buf ++ b)).2 } := by
  have hbs : 0 < k.blockSize := by omega
  rw [Write]
  by_cases hb : k.buf.length > 0
  · rw [if_pos hb]
    simp only []
    by_cases hsmall : k.buf.length + b.length < k.blockSize
    · have hx : min (k.blockSize - k.buf.length) b.length = b.length := by omega
      rw [hx, List.take_length]
      rw [if_pos (by simp only [List.length_append]; omega)]
      rw [absorbAll_stop _ _ _ (by simp only [List.length_append]; omega)]
    · have hx : min (k.blockSize - k.buf.length) b.length =
          k.blockSize - k.buf.length := by omega
      rw [hx]
      rw [if_neg (by simp only [List.length_append, List.length_take]; omega)]
      rw [absorb_some k _ (by simp only [List.length_append, List.length_take]; omega)]
      simp only []
      rw [absorbLoop_eq]
      · have ht : (k.buf ++ b).take k.blockSize =
            k.buf ++ b.take (k.blockSize - k.buf.length) := by
          rw [List.take_append_eq_append_take, List.take_of_length_le (Nat.le_of_lt h)]
        have hd : (k.buf ++ b).drop k.blockSize = b.drop (k.blockSize - k.buf.length) := by
          rw [List.drop_append_eq_append_drop,
            List.drop_eq_nil_of_le (Nat.le_of_lt h), List.nil_append]
        have hlen : k.blockSize ≤ (k.buf ++ b).length := by
          simp only [List.length_append]
          omega
        have key : absorbAll k.blockSize k.S (k.buf ++ b) =
            absorbAll k.blockSize
              (keccakf000 (xorIn k.blockSize k.S
                (k.buf ++ b.take (k.blockSize - k.buf.length))))
              (b.drop (k.blockSize - k.buf.length)) := by
          rw [absorbAll_step k.blockSize k.S (k.buf ++ b) ⟨hbs, hlen⟩, ht, hd]
        rw [key]
      · exact hbs
  · rw [if_neg hb]
    have he : k.buf = [] := List.length_eq_zero.mp (by omega)
    rw [absorbLoop_eq]
    · simp only []
      rw [he, List.nil_append]
    · exact hbs

theorem absorbAll_append (bs : Nat) (hbs : 0 < bs) :
    ∀ (x y : List Nat) (S : KState),
      absorbAll bs S (x ++ y) =
        absorbAll bs (absorbAll bs S x).1 ((absorbAll bs S x).2 ++ y) := by
  suffices H : ∀ (n : Nat) (x y : List Nat) (S : KState), x.length ≤ n →
      absorbAll bs S (x ++ y) =
        absorbAll bs (absorbAll bs S x).1 ((absorbAll bs S x).2 ++ y) by
    intro x y S
    exact H x.length x y S (Nat.le_refl _)
  intro n
  induction n with
  | zero =>
    intro x y S h
    rw [absorbAll_stop bs S x (by omega)]
  | succ n ih =>
    intro x y S h
    by_cases hg : bs ≤ x.length
    · have hxy : bs ≤ (x ++ y).length := by
        simp only [List.length_append]
        omega
      rw [absorbAll_step bs S (x ++ y) ⟨hbs, hxy⟩, absorbAll_step bs S x ⟨hbs, hg⟩,
        List.take_append_of_le_length hg, List.drop_append_of_le_length hg]
      exact ih (x.drop bs) y _ (by simp only [List.length_drop]; omega)
    · rw [absorbAll_stop bs S x (by omega)]

/-- C4: streaming equivalence — for every sponge instance satisfying the
pending-buffer invariant and every partition of an input into chunks,
writing the chunks in order with successive `Write` calls gives the same
result (state array and pending buffer, hence the same digest) as writing
the concatenated sequence in a single `Write` call. -/
theorem C4_streaming_equivalence (k : Keccak) (chunks : List (List Nat))
    (h : k.buf.length < k.blockSize) :
    writeList k chunks = Write k chunks.flatten := by
  induction chunks generalizing k with
  | nil =>
    rw [writeList, List.flatten_nil, Write_eq k [] h, List.append_nil,
      absorbAll_stop k.blockSize k.S k.buf (by omega)]
  | cons c cs ih =>
    have hbs : 0 < k.blockSize := by omega
    rw [writeList, Write_eq k c h]
    simp only []
    have h1 : (absorbAll k.blockSize k.S (k.buf ++ c)).2.length < k.blockSize :=
      absorbAll_rem_lt k.blockSize hbs (k.buf ++ c) k.S
    rw [ih _ h1, List.flatten_cons,
      Write_eq _ cs.flatten h1, Write_eq k (c ++ cs.flatten) h]
    have ha : k.buf ++ (c ++ cs.flatten) = (k.buf ++ c) ++ cs.flatten :=
      (List.append_assoc _ _ _).symm
    rw [ha, absorbAll_append k.blockSize hbs (k.buf ++ c) cs.flatten k.S]

theorem C4_streaming_equivalence_witness :
    let K : Keccak :=
      { S := fun _ => 0, size := 2, blockSize := 3, buf := [], domain := 1 }
    K.buf.length < K.blockSize ∧
      writeList K [[1], [2]] = Write K ([[1], [2]] : List (List Nat)).flatten :=
  ⟨by decide, C4_streaming_equivalence _ [[1], [2]] (by decide)⟩

theorem SumK_fst (k : Keccak) (b : List Nat) :
    (SumK k b).1 =
      some (b ++ squeezeLoop k.blockSize
        (keccakf000 (xorIn k.blockSize k.S (pad k))) k.size) := by
  show (match final k with
    | none => none
    | some k1 => some (squeeze k1 b)) = _
  rw [final_eq]
  rfl

/-- C7: the pending-buffer invariant — after construction (all ten
constructors) and after every `Write`, `Reset`, or `Sum`, the pending
buffer is strictly shorter than the rate; `Write` absorbs one full block
whenever pending plus input reaches the rate (the `absorbAll` normal
form), repeats until fewer than rate bytes remain, and always consumes
all input without failing. -/
theorem C7_pending_buffer_invariant (k : Keccak) (b extra : List Nat) (n : Nat)
    (h : k.buf.length < k.blockSize) :
    (Write k b = some { k with
        S := (absorbAll k.blockSize k.S (k.buf ++ b)).1,
        buf := (absorbAll k.blockSize k.S (k.buf ++ b)).2 }
      ∧ (absorbAll k.blockSize k.S (k.buf ++ b)).2.length < k.blockSize)
    ∧ (Reset k).buf.length < (Reset k).blockSize
    ∧ (SumK k extra).2.buf.length < (SumK k extra).2.blockSize
    ∧ New224.buf.length < New224.blockSize
    ∧ New256.buf.length < New256.blockSize
    ∧ New384.buf.length < New384.blockSize
    ∧ New512.buf.length < New512.blockSize
    ∧ NewSHA3224.buf.length < NewSHA3224.blockSize
    ∧ NewSHA3256.buf.length < NewSHA3256.blockSize
    ∧ NewSHA3384.buf.length < NewSHA3384.blockSize
    ∧ NewSHA3512.buf.length < NewSHA3512.blockSize
    ∧ (NewSHAKE128 n).buf.length < (NewSHAKE128 n).blockSize
    ∧ (NewSHAKE256 n).buf.length < (NewSHAKE256 n).blockSize :=
  ⟨⟨Write_eq k b h, absorbAll_rem_lt k.blockSize (by omega) (k.buf ++ b) k.S⟩,
   by show (0 : Nat) < k.blockSize; omega,
   h,
   by decide, by decide, by decide, by decide, by decide, by decide, by decide,
   by decide,
   by show ([] : List Nat).length < 200 - 128 * 2 / 8; decide,
   by show ([] : List Nat).length < 200 - 256 * 2 / 8; decide⟩

theorem C7_pending_buffer_invariant_witness :
    let K : Keccak :=
      { S := fun _ => 0, size := 2, blockSize := 5, buf := [3], domain := 6 }
    K.buf.length < K.blockSize ∧
      ((Write K [7] = some { K with
          S := (absorbAll K.blockSize K.S (K.buf ++ [7])).1,
          buf := (absorbAll K.blockSize K.S (K.buf ++ [7])).2 }
        ∧ (absorbAll K.blockSize K.S (K.buf ++ [7])).2.length < K.blockSize)
       ∧ (Reset K).buf.length < (Reset K).blockSize
       ∧ (SumK K []).2.buf.length < (SumK K []).2.blockSize
       ∧ New224.buf.length < New224.blockSize
       ∧ New256.buf.length < New256.blockSize
       ∧ New384.buf.length < New384.blockSize
       ∧ New512.buf.length < New512.blockSize
       ∧ NewSHA3224.buf.length < NewSHA3224.blockSize
       ∧ NewSHA3256.buf.length < NewSHA3256.blockSize
       ∧ NewSHA3384.buf.length < NewSHA3384.blockSize
       ∧ NewSHA3512.buf.length < NewSHA3512.blockSize
       ∧ (NewSHAKE128 4).buf.length < (NewSHAKE128 4).blockSize
       ∧ (NewSHAKE256 4).buf.length < (NewSHAKE256 4).blockSize) :=
  ⟨by decide, C7_pending_buffer_invariant _ [7] [] 4 (by decide)⟩

/-- C8: `absorb` panics (`none`) exactly when the block length differs
from the rate; under `len(block) = rate` it XORs the rate/8 little-endian
words into the leading lanes and permutes once; and under the buffer
invariant both internal call sites succeed — `Write` and the
`final`-driven `Sum` never hit the panic branch. -/
theorem C8_absorb_panics_iff_bad_length (k : Keccak) (block b extra : List Nat)
    (h : k.buf.length < k.blockSize) :
    (absorb k block = none ↔ block.length ≠ k.blockSize)
    ∧ (block.length = k.blockSize →
        absorb k block = some { k with S := keccakf000 (xorIn k.blockSize k.S block) })
    ∧ (∃ k1, Write k b = some k1)
    ∧ (∃ d, (SumK k extra).1 = some d) := by
  refine ⟨?_, fun hc => absorb_some k block hc, ⟨_, Write_eq k b h⟩, ⟨_, SumK_fst k extra⟩⟩
  rw [absorb]
  split
  · simp_all
  · simp_all

theorem C8_absorb_panics_iff_bad_length_witness :
    let K : Keccak :=
      { S := fun _ => 0, size := 2, blockSize := 5, buf := [3], domain := 6 }
    K.buf.length < K.blockSize ∧
      ((absorb K [1, 2, 3] = none ↔ ([1, 2, 3] : List Nat).length ≠ K.blockSize)
       ∧ (([1, 2, 3] : List Nat).length = K.blockSize →
           absorb K [1, 2, 3] =
             some { K with S := keccakf000 (xorIn K.blockSize K.S [1, 2, 3]) })
       ∧ (∃ k1, Write K [] = some k1)
       ∧ (∃ d, (SumK K []).1 = some d)) :=
  ⟨by decide, C8_absorb_panics_iff_bad_length _ [1, 2, 3] [] [] (by decide)⟩

theorem squeezeLoop_le (bs n : Nat) (S : KState) (h : n ≤ bs) :
    squeezeLoop bs S n = (stateBytes S).take n := by
  rw [squeezeLoop, if_pos h]

theorem squeezeLoop_gt (bs n : Nat) (S : KState) (h1 : 0 < bs) (h : ¬n ≤ bs) :
    squeezeLoop bs S n =
      (stateBytes S).take bs ++ squeezeLoop bs (keccakf000 S) (n - bs) := by
  rw [squeezeLoop, if_neg h, dif_pos h1]

theorem squeezeLoop_take (bs : Nat) (h1 : 0 < bs) (h2 : bs ≤ 200) :
    ∀ (m n : Nat) (S : KState), n ≤ m →
      squeezeLoop bs S n = (squeezeLoop bs S m).take n := by
  intro m
  induction m using Nat.strong_induction_on with
  | _ m ih =>
    intro n S hnm
    by_cases hm : m ≤ bs
    · rw [squeezeLoop_le bs n S (by omega), squeezeLoop_le bs m S hm, List.take_take,
        Nat.min_eq_left hnm]
    · have hlt : ((stateBytes S).take bs).length = bs := by
        rw [List.length_take, stateBytes_length]
        omega
      by_cases hn : n ≤ bs
      · rw [squeezeLoop_le bs n S hn, squeezeLoop_gt bs m S h1 hm,
          List.take_append_eq_append_take, hlt, List.take_take, Nat.min_eq_left hn,
          show n - bs = 0 by omega, List.take_zero, List.append_nil]
      · rw [squeezeLoop_gt bs n S h1 hn, squeezeLoop_gt bs m S h1 hm,
          List.take_append_eq_append_take, hlt, List.take_take,
          Nat.min_eq_right (by omega)]
        congr 1
        exact ih (m - bs) (by omega) (n - bs) _ (by omega)

theorem hash_take_core (S0 : KState) (bs dom sz1 sz2 : Nat) (buf input : List Nat)
    (hinv : buf.length < bs) (h200 : bs ≤ 200) (hsz : sz1 ≤ sz2) :
    hashBytes { S := S0, size := sz1, blockSize := bs, buf := buf, domain := dom } input =
      (hashBytes { S := S0, size := sz2, blockSize := bs, buf := buf, domain := dom }
          input).map (fun d => d.take sz1) := by
  have h1 : (0 : Nat) < bs := by omega
  rw [hashBytes, hashBytes,
    Write_eq { S := S0, size := sz1, blockSize := bs, buf := buf, domain := dom } input hinv,
    Write_eq { S := S0, size := sz2, blockSize := bs, buf := buf, domain := dom } input hinv]
  simp only []
  rw [SumK_fst, SumK_fst]
  simp only [List.nil_append, Option.map_some]
  congr 1
  exact squeezeLoop_take bs h1 h200 sz2 sz1 _ hsz

/-- C9: extendable-output prefix property — for every input and every
`n ≥ 0`, the digest of a SHAKE instance constructed with output length `n`
equals the first `n` bytes of the digest of a same-family instance
constructed with output length `2n`, after writing the same input to
both.  Proved for SHAKE128 and SHAKE256. -/
theorem C9_shake_prefix_property (input : List Nat) (n : Nat) :
    hashBytes (NewSHAKE128 n) input =
      (hashBytes (NewSHAKE128 (2 * n)) input).map (fun d => d.take n)
    ∧ hashBytes (NewSHAKE256 n) input =
      (hashBytes (NewSHAKE256 (2 * n)) input).map (fun d => d.take n) := by
  have hn : n * 8 / 8 = n := by omega
  have hn2 : 2 * n * 8 / 8 = 2 * n := by omega
  constructor
  · have e1 : NewSHAKE128 n =
        { S := fun _ => 0, size := n, blockSize := 168, buf := [],
          domain := domainSHAKE } := by
      rw [NewSHAKE128, newKeccak, hn]
    have e2 : NewSHAKE128 (2 * n) =
        { S := fun _ => 0, size := 2 * n, blockSize := 168, buf := [],
          domain := domainSHAKE } := by
      rw [NewSHAKE128, newKeccak, hn2]
    rw [e1, e2]
    exact hash_take_core (fun _ => 0) 168 domainSHAKE n (2 * n) [] input
      (by decide) (by decide) (by omega)
  · have e1 : NewSHAKE256 n =
        { S := fun _ => 0, size := n, blockSize := 136, buf := [],
          domain := domainSHAKE } := by
      rw [NewSHAKE256, newKeccak, hn]
    have e2 : NewSHAKE256 (2 * n) =
        { S := fun _ => 0, size := 2 * n, blockSize := 136, buf := [],
          domain := domainSHAKE } := by
      rw [NewSHAKE256, newKeccak, hn2]
    rw [e1, e2]
    exact hash_take_core (fun _ => 0) 136 domainSHAKE n (2 * n) [] input
      (by decide) (by decide) (by omega)
